import Mathlib

/-!
Verification of the JSON-RPC command dispatch engine of `src/rpc/server.cpp`
(bitcoin-abc). The definitions below are a shallow embedding of that file:
pure fragments become Lean functions, the mutable globals (warmup flag,
registries, execution tracker, timer map) become explicit state arguments,
and C++ exceptions become `Except` values. A thrown `JSONRPCError` (which in
C++ is a thrown `UniValue` object) is modelled as `Exc.rpc`; any
`std::exception` is modelled as `Exc.std` carrying its `what()` text.
-/

/-- JSON-like structured value, mirroring the `UniValue` type consumed by
`server.cpp` (null, bool, number, string, array, object). Numbers are
modelled as integers; no claim depends on fractional literals. -/
inductive UniValue where
  | vnull
  | vbool (b : Bool)
  | vnum (n : Int)
  | vstr (s : String)
  | varr (values : List UniValue)
  | vobj (entries : List (String × UniValue))

/-- `UniValue::isObject`. -/
def UniValue.isObject : UniValue → Bool
  | .vobj _ => true
  | _ => false

/-- `UniValue::isNull`. -/
def UniValue.isNull : UniValue → Bool
  | .vnull => true
  | _ => false

/-- The key/value entries of an object value (`getKeys`/`getValues`,
which `server.cpp` only calls on objects). -/
def UniValue.getObjEntries : UniValue → List (String × UniValue)
  | .vobj kvs => kvs
  | _ => []

/-- `UniValue::size`-compatible element view used by batch execution:
`operator[]` indexes the `values` vector for both arrays and objects and
`size()` is 0 for every other tag. -/
def UniValue.getElems : UniValue → List UniValue
  | .varr vs => vs
  | .vobj kvs => kvs.map (fun e => e.2)
  | _ => []

/-- `find_value(o, key)`: first entry with the key, `null` when absent. -/
def findValue (entries : List (String × UniValue)) (key : String) : UniValue :=
  (entries.lookup key).getD .vnull

/-- RPC error payload of a thrown `JSONRPCError(code, message)` object. -/
structure RPCError where
  code : Int
  message : String
deriving DecidableEq

/-- The two exception shapes observable in `server.cpp`: a thrown RPC error
object (`catch (const UniValue &)`) and any other `std::exception`
(`catch (const std::exception &)`, observed through `what()`). -/
inductive Exc where
  | rpc (e : RPCError)
  | std (msg : String)
deriving DecidableEq

/- Error codes from `rpc/protocol.h` (values of the JSON-RPC error space
used by `server.cpp`). -/

def RPC_MISC_ERROR : Int := -1
def RPC_TYPE_ERROR : Int := -3
def RPC_INVALID_PARAMETER : Int := -8
def RPC_IN_WARMUP : Int := -28
def RPC_METHOD_NOT_FOUND : Int := -32601
def RPC_INTERNAL_ERROR : Int := -32603
def RPC_PARSE_ERROR : Int := -32700

/-- The fields of `JSONRPCRequest` that `server.cpp` reads or writes. -/
structure JSONRPCRequest where
  strMethod : String
  params : UniValue
  id : UniValue
  fHelp : Bool

/-- The warmup gate: `fRPCInWarmup` and `rpcWarmupStatus`
(both guarded by `cs_rpcWarmup` in the source). -/
structure WarmupState where
  fRPCInWarmup : Bool
  rpcWarmupStatus : String

/-- One entry of the execution tracker (`RPCCommandExecutionInfo`). -/
structure RPCCommandExecutionInfo where
  method : String
  start : Int
deriving DecidableEq

/-- Constructor of the RAII guard `RPCCommandExecution`: inserts at
`active_commands.cend()` and keeps the iterator (modelled as the index of
the inserted element). -/
def RPCCommandExecution.begin (l : List RPCCommandExecutionInfo)
    (method : String) (now : Int) : List RPCCommandExecutionInfo × Nat :=
  (l ++ [⟨method, now⟩], l.length)

/-- Destructor of `RPCCommandExecution`: erases the stored iterator. -/
def RPCCommandExecution.finish (l : List RPCCommandExecutionInfo)
    (it : Nat) : List RPCCommandExecutionInfo :=
  l.eraseIdx it

/-- Association-map update with `operator[]` semantics (overwrite in place
or append), used for the `argsIn` map of `transformNamedArguments`. -/
def upsert (l : List (String × UniValue)) (k : String) (v : UniValue) :
    List (String × UniValue) :=
  match l with
  | [] => [(k, v)]
  | (k₀, v₀) :: rest => if k₀ = k then (k₀, v) :: rest else (k₀, v₀) :: upsert rest k v

/-- `map::erase(key)`: drop the entry with the key. Keys are unique in
every map modelled here (`std::map`/`std::unordered_map`), so removing
every occurrence coincides with removing the one entry. -/
def eraseKey {α : Type} : List (String × α) → String → List (String × α)
  | [], _ => []
  | e :: rest, k => if e.1 = k then eraseKey rest k else e :: eraseKey rest k

/-- The `argsIn` map built from the object parameters
(`argsIn[keys[i]] = &values[i]` in insertion order). -/
def buildArgsIn (entries : List (String × UniValue)) : List (String × UniValue) :=
  entries.foldl (fun m e => upsert m e.1 e.2) []

/-- Splitting a character list at every occurrence of a separator; an
empty input yields one empty token, as `boost::algorithm::split` does. -/
def splitOnChar (sep : Char) : List Char → List (List Char)
  | [] => [[]]
  | c :: rest =>
    let r := splitOnChar sep rest
    if c = sep then [] :: r
    else
      match r with
      | [] => [[c]]
      | g :: gs => (c :: g) :: gs

/-- `boost::algorithm::split(vargNames, argNamePattern, is_any_of("|"))`:
the alias group of one declared parameter name. -/
def splitPipe (s : String) : List String :=
  (splitOnChar '|' s.data).map String.mk

/-- The inner loop of `transformNamedArguments` over one alias group:
`argsIn.find(argName)` for each alias in order, stopping at the first hit. -/
def findAlias (argsIn : List (String × UniValue)) :
    List String → Option (String × UniValue)
  | [] => none
  | a :: rest =>
    match argsIn.lookup a with
    | some v => some (a, v)
    | none => findAlias argsIn rest

/-- Working state of the `transformNamedArguments` walk: the remaining
named-argument map, the positional output built so far, and the pending
run of skipped positions (`hole`). -/
structure TransformAcc where
  argsIn : List (String × UniValue)
  outParams : List UniValue
  hole : Nat

/-- One step of the walk over `argNames`: split the pattern on `|`, look
for the first present alias; on a hit emit the pending holes as nulls and
then the value (erasing it from the map), on a miss count one more hole. -/
def transformStep (acc : TransformAcc) (argNamePattern : String) : TransformAcc :=
  match findAlias acc.argsIn (splitPipe argNamePattern) with
  | some av =>
    { argsIn := eraseKey acc.argsIn av.1,
      outParams := acc.outParams ++ List.replicate acc.hole .vnull ++ [av.2],
      hole := 0 }
  | none => { acc with hole := acc.hole + 1 }

/-- `transformNamedArguments(in, argNames)`: named-to-positional argument
transformation; fails with `RPC_INVALID_PARAMETER` naming the first
remaining unknown key. -/
def transformNamedArguments (inp : JSONRPCRequest) (argNames : List String) :
    Except Exc JSONRPCRequest :=
  let acc := argNames.foldl transformStep
    ⟨buildArgsIn inp.params.getObjEntries, [], 0⟩
  match acc.argsIn with
  | [] => .ok { inp with params := .varr acc.outParams }
  | (k, _) :: _ =>
    .error (.rpc ⟨RPC_INVALID_PARAMETER, "Unknown named parameter " ++ k⟩)

/-- A static (`ContextFreeRPCCommand`) table entry: category, name,
handler, declared argument names. `addr` models the address of the
descriptor, used by `CRPCTable::help` for its set-of-pointers
deduplication. -/
structure ContextFreeRPCCommand where
  category : String
  name : String
  call : JSONRPCRequest → Except Exc UniValue
  argNames : List String
  addr : Nat

/-- The static command table `CRPCTable` (`mapCommands`). -/
structure CRPCTable where
  mapCommands : List (String × ContextFreeRPCCommand)

/-- `CRPCTable::operator[]`: lookup by name, null pointer becomes `none`. -/
def CRPCTable.find? (t : CRPCTable) (name : String) : Option ContextFreeRPCCommand :=
  t.mapCommands.lookup name

/-- `CRPCTable::appendCommand`: refuse while the RPC server is running
(`IsRPCRunning`, the `g_rpc_running` flag passed explicitly) or when the
name is already mapped; otherwise insert. -/
def CRPCTable.appendCommand (t : CRPCTable) (running : Bool) (name : String)
    (pcmd : ContextFreeRPCCommand) : Bool × CRPCTable :=
  if running then (false, t)
  else
    match t.mapCommands.lookup name with
    | some _ => (false, t)
    | none => (true, ⟨t.mapCommands ++ [(name, pcmd)]⟩)

/-- The `catch (const std::exception &e)` block of `CRPCTable::execute`:
a non-RPC-shaped failure is rethrown as `JSONRPCError(RPC_MISC_ERROR,
e.what())`; a thrown RPC error object is not caught there. -/
def wrapMiscError : Except Exc UniValue → Except Exc UniValue
  | .error (.std m) => .error (.rpc ⟨RPC_MISC_ERROR, m⟩)
  | r => r

/-- Observable outcome of one dispatch: the returned value or propagated
exception, the final tracker list, whether a handler body was invoked, and
(when one was) the tracker contents at the moment of that invocation. -/
structure ExecOutcome where
  result : Except Exc UniValue
  tracker : List RPCCommandExecutionInfo
  handlerInvoked : Bool
  trackerAtCall : Option (List RPCCommandExecutionInfo)

/-- `CRPCTable::execute`: warmup gate, static lookup, RAII tracker entry,
named-argument transformation for object params, handler invocation, and
`std::exception` normalisation to `RPC_MISC_ERROR`. -/
def CRPCTable.execute (t : CRPCTable) (warm : WarmupState)
    (tracker : List RPCCommandExecutionInfo) (now : Int)
    (request : JSONRPCRequest) : ExecOutcome :=
  if warm.fRPCInWarmup then
    ⟨.error (.rpc ⟨RPC_IN_WARMUP, warm.rpcWarmupStatus⟩), tracker, false, none⟩
  else
    match t.find? request.strMethod with
    | none =>
      ⟨.error (.rpc ⟨RPC_METHOD_NOT_FOUND, "Method not found"⟩), tracker, false, none⟩
    | some pcmd =>
      let begun := RPCCommandExecution.begin tracker request.strMethod now
      let after := RPCCommandExecution.finish begun.1 begun.2
      if request.params.isObject then
        match transformNamedArguments request pcmd.argNames with
        | .error e => ⟨wrapMiscError (.error e), after, false, none⟩
        | .ok req2 => ⟨wrapMiscError (pcmd.call req2), after, true, some begun.1⟩
      else
        ⟨wrapMiscError (pcmd.call request), after, true, some begun.1⟩

/-- A dynamically registered (`RPCCommand`) descriptor: a name and its own
`Execute` capability. -/
structure RPCCommand where
  name : String
  Execute : JSONRPCRequest → Except Exc UniValue

/-- The dynamic command registry owned by `RPCServer` (`commands`). -/
structure RPCServer where
  commands : List (String × RPCCommand)

/-- `RPCServer::ExecuteCommand`: warmup gate, dynamic lookup (a hit is
executed directly, untracked and untransformed), fallthrough to the
static `tableRPC.execute`. -/
def RPCServer.ExecuteCommand (srv : RPCServer) (t : CRPCTable)
    (warm : WarmupState) (tracker : List RPCCommandExecutionInfo) (now : Int)
    (request : JSONRPCRequest) : ExecOutcome :=
  if warm.fRPCInWarmup then
    ⟨.error (.rpc ⟨RPC_IN_WARMUP, warm.rpcWarmupStatus⟩), tracker, false, none⟩
  else
    match srv.commands.lookup request.strMethod with
    | some cmd => ⟨cmd.Execute request, tracker, true, some tracker⟩
    | none => t.execute warm tracker now request

/-- `RPCServer::RegisterCommand`: a null pointer is ignored; otherwise
`map::insert` keyed by the command's name (which never overwrites an
existing key). -/
def RPCServer.RegisterCommand (srv : RPCServer) (command : Option RPCCommand) :
    RPCServer :=
  match command with
  | none => srv
  | some cmd =>
    if (srv.commands.lookup cmd.name).isSome then srv
    else { commands := srv.commands ++ [(cmd.name, cmd)] }

/-! ### Batch execution (`JSONRPCExecOne` / `JSONRPCExecBatch`)

`JSONRPCRequest::parse`, `JSONRPCError` and `JSONRPCReplyObj` live in
`rpc/protocol.cpp`, and `UniValue::write` in the univalue library; neither
is part of the provided sources, so they are modelled from the spec below.
-/

/-- The error member of a thrown RPC error as the wire-level error object
`\x7b"code": int, "message": string\x7d` (spec section 6). -/
def RPCError.toUniValue (e : RPCError) : UniValue :=
  .vobj [("code", .vnum e.code), ("message", .vstr e.message)]

/-- Modelled from the spec: `JSONRPCReplyObj` (rpc/protocol.cpp, not among
the provided sources). A reply envelope carries `result`, `error` and the
echoed `id`, with exactly one of `result`/`error` populated (spec sections
3 and 6). -/
def JSONRPCReplyObj (result error id : UniValue) : UniValue :=
  if error.isNull then .vobj [("result", result), ("error", .vnull), ("id", id)]
  else .vobj [("result", .vnull), ("error", error), ("id", id)]

/-- Modelled from the spec: `JSONRPCRequest::parse` (rpc/protocol.cpp, not
among the provided sources). The wire-level request is an object
`\x7b"method": string, "params": array | object, "id": any\x7d` (spec
section 6); the `id` is recorded before the remaining checks so that error
replies echo it, and a malformed request envelope must surface as a
parse-error reply (spec sections 4.5 and 7), so parse failures are
modelled as non-RPC-shaped errors, which `JSONRPCExecOne` turns into
`RPC_PARSE_ERROR`. Returns the updated request and the failure, if any. -/
def JSONRPCRequest.parse (jreq : JSONRPCRequest) (req : UniValue) :
    JSONRPCRequest × Option Exc :=
  match req with
  | .vobj entries =>
    let jreq1 := { jreq with id := findValue entries "id" }
    match findValue entries "method" with
    | .vstr m =>
      let jreq2 := { jreq1 with strMethod := m }
      match findValue entries "params" with
      | .varr vs => ({ jreq2 with params := .varr vs }, none)
      | .vobj kvs => ({ jreq2 with params := .vobj kvs }, none)
      | .vnull => ({ jreq2 with params := .varr [] }, none)
      | _ => (jreq2, some (.std "Params must be an array or object"))
    | .vnull => (jreq1, some (.std "Missing method"))
    | _ => (jreq1, some (.std "Method must be a string"))
  | _ => (jreq, some (.std "Invalid Request object"))

/-- JSON string escaping of the serializer (modelled from the univalue
library, which is not among the provided sources): control characters,
the quote and the backslash are escaped. -/
def jsonEscapeChar (c : Char) : String :=
  if c = '"' then "\\\""
  else if c = '\\' then "\\\\"
  else if c = '\n' then "\\n"
  else if c = '\r' then "\\r"
  else if c = '\t' then "\\t"
  else if c.toNat < 32 then
    "\\u00" ++ String.mk [Nat.digitChar (c.toNat / 16), Nat.digitChar (c.toNat % 16)]
  else String.mk [c]

/-- JSON rendering of a string literal. -/
def jsonQuote (s : String) : String :=
  "\"" ++ String.join (s.data.map jsonEscapeChar) ++ "\""

mutual
/-- Modelled from the spec: compact `UniValue::write` of the univalue
library (not among the provided sources); the spec only requires the batch
reply to be the serialized JSON array (spec section 6). -/
def UniValue.write : UniValue → String
  | .vnull => "null"
  | .vbool b => cond b "true" "false"
  | .vnum n => toString n
  | .vstr s => jsonQuote s
  | .varr vs => "[" ++ UniValue.writeElems vs ++ "]"
  | .vobj kvs => "\x7b" ++ UniValue.writeEntries kvs ++ "\x7d"

/-- Comma-separated serialization of array elements. -/
def UniValue.writeElems : List UniValue → String
  | [] => ""
  | [v] => UniValue.write v
  | v :: rest => UniValue.write v ++ "," ++ UniValue.writeElems rest

/-- Comma-separated serialization of object entries. -/
def UniValue.writeEntries : List (String × UniValue) → String
  | [] => ""
  | [(k, v)] => jsonQuote k ++ ":" ++ UniValue.write v
  | (k, v) :: rest => jsonQuote k ++ ":" ++ UniValue.write v ++ "," ++ UniValue.writeEntries rest
end

/-- `JSONRPCExecOne`: parse one batch element into a request, execute it,
and wrap the value or error into a reply envelope; a thrown RPC error
object becomes that error's envelope and any other exception becomes an
`RPC_PARSE_ERROR` envelope. Returns the envelope and the tracker state. -/
def JSONRPCExecOne (srv : RPCServer) (t : CRPCTable) (warm : WarmupState)
    (tracker : List RPCCommandExecutionInfo) (now : Int)
    (jreq : JSONRPCRequest) (req : UniValue) :
    UniValue × List RPCCommandExecutionInfo :=
  let parsed := JSONRPCRequest.parse jreq req
  match parsed.2 with
  | some (.rpc e) => (JSONRPCReplyObj .vnull e.toUniValue parsed.1.id, tracker)
  | some (.std m) =>
    (JSONRPCReplyObj .vnull (RPCError.toUniValue ⟨RPC_PARSE_ERROR, m⟩) parsed.1.id, tracker)
  | none =>
    let out := srv.ExecuteCommand t warm tracker now parsed.1
    match out.result with
    | .ok r => (JSONRPCReplyObj r .vnull parsed.1.id, out.tracker)
    | .error (.rpc e) => (JSONRPCReplyObj .vnull e.toUniValue parsed.1.id, out.tracker)
    | .error (.std m) =>
      (JSONRPCReplyObj .vnull (RPCError.toUniValue ⟨RPC_PARSE_ERROR, m⟩) parsed.1.id, out.tracker)

/-- The loop of `JSONRPCExecBatch`: one envelope per element, threading
the tracker state through the successive dispatches. -/
def batchLoop (srv : RPCServer) (t : CRPCTable) (warm : WarmupState) (now : Int)
    (jreq : JSONRPCRequest) :
    List UniValue → List RPCCommandExecutionInfo →
    List UniValue × List RPCCommandExecutionInfo
  | [], tracker => ([], tracker)
  | r :: rest, tracker =>
    let one := JSONRPCExecOne srv t warm tracker now jreq r
    let more := batchLoop srv t warm now jreq rest one.2
    (one.1 :: more.1, more.2)

/-- `JSONRPCExecBatch`: reply array over the elements of `vReq`,
serialized with a trailing newline. -/
def JSONRPCExecBatch (srv : RPCServer) (t : CRPCTable) (warm : WarmupState)
    (tracker : List RPCCommandExecutionInfo) (now : Int)
    (jreq : JSONRPCRequest) (vReq : UniValue) :
    String × List RPCCommandExecutionInfo :=
  let run := batchLoop srv t warm now jreq vReq.getElems tracker
  ((UniValue.varr run.1).write ++ "\n", run.2)

/-! ### Help aggregation (`CRPCTable::help`) -/

/-- `Capitalize` from `util/strencodings`: upper-case the first character
(ASCII), leave the rest unchanged. -/
def Capitalize (s : String) : String :=
  match s.data with
  | [] => s
  | c :: rest => String.mk (c.toUpper :: rest)

/-- The first-line truncation of `CRPCTable::help`:
`strHelp.substr(0, strHelp.find(newline))` when a newline occurs (and the
whole text when none does): the prefix up to the first newline. -/
def firstLine (s : String) : String :=
  String.mk (s.data.takeWhile (fun c => c ≠ '\n'))

/-- `substr(0, size - 1)` on the accumulated help text, whose last
character is always a one-byte newline. -/
def dropLastChar (s : String) : String :=
  String.mk s.data.dropLast

/-- The request handed to each handler by the help aggregator: a copy of
`helpreq` with `fHelp` set, empty (null) params, and the command's name. -/
def helpReqFor (helpreq : JSONRPCRequest) (method : String) : JSONRPCRequest :=
  { helpreq with fHelp := true, params := .vnull, strMethod := method }

/-- Accumulator of the `CRPCTable::help` loop: the text built so far, the
category of the last emitted header, and the set of descriptor addresses
already invoked (`setDone`). -/
structure HelpAcc where
  strRet : String
  category : String
  setDone : List Nat

/-- One iteration of the `CRPCTable::help` loop over an entry of the
sorted command list: skip non-matching or hidden commands, invoke each
descriptor at most once, and append the caught usage text (first line
only, with category headers, for an empty filter; in full otherwise). A
handler that raises an RPC-shaped (thrown `UniValue`) error propagates it
out of `help`, and a handler that returns normally contributes nothing. -/
def helpLoopStep (strCommand : String) (helpreq : JSONRPCRequest)
    (acc : HelpAcc) (e : String × ContextFreeRPCCommand) : Except Exc HelpAcc :=
  let pcmd := e.2
  let strMethod := pcmd.name
  if (strCommand ≠ "" ∨ pcmd.category = "hidden") ∧ strMethod ≠ strCommand then
    .ok acc
  else if acc.setDone.contains pcmd.addr then
    .ok acc
  else
    match pcmd.call (helpReqFor helpreq strMethod) with
    | .ok _ => .ok { acc with setDone := pcmd.addr :: acc.setDone }
    | .error (.rpc err) => .error (.rpc err)
    | .error (.std msg) =>
      let acc := { acc with setDone := pcmd.addr :: acc.setDone }
      if strCommand = "" then
        let strHelp := firstLine msg
        if acc.category ≠ pcmd.category then
          let sep := if acc.category = "" then "" else "\n"
          let line := sep ++ "== " ++ Capitalize pcmd.category ++ " ==\n" ++ strHelp ++ "\n"
          .ok { acc with category := pcmd.category, strRet := acc.strRet ++ line }
        else
          .ok { acc with strRet := acc.strRet ++ strHelp ++ "\n" }
      else
        .ok { acc with strRet := acc.strRet ++ msg ++ "\n" }

/-- The loop of `CRPCTable::help` over the sorted command list. -/
def helpLoop (strCommand : String) (helpreq : JSONRPCRequest) (acc : HelpAcc) :
    List (String × ContextFreeRPCCommand) → Except Exc HelpAcc
  | [] => .ok acc
  | e :: rest =>
    match helpLoopStep strCommand helpreq acc e with
    | .error err => .error err
    | .ok acc2 => helpLoop strCommand helpreq acc2 rest

/-- Lexicographic less-or-equal on character lists, as `std::string`
`operator<` compares (by code unit). -/
def lexLe : List Char → List Char → Bool
  | [], _ => true
  | _ :: _, [] => false
  | a :: as, b :: bs =>
    if a.toNat < b.toNat then true
    else if b.toNat < a.toNat then false
    else lexLe as bs

theorem lexLe_total : ∀ as bs : List Char,
    lexLe as bs = true ∨ lexLe bs as = true := by
  intro as
  induction as with
  | nil => intro bs; exact Or.inl rfl
  | cons a as ih =>
    intro bs
    cases bs with
    | nil => exact Or.inr rfl
    | cons b bs =>
      unfold lexLe
      by_cases hab : a.toNat < b.toNat
      · left
        rw [if_pos hab]
      · by_cases hba : b.toNat < a.toNat
        · right
          rw [if_pos hba]
        · rw [if_neg hab, if_neg hba, if_neg hba, if_neg hab]
          exact ih bs

theorem lexLe_trans : ∀ as bs cs : List Char,
    lexLe as bs = true → lexLe bs cs = true → lexLe as cs = true := by
  intro as
  induction as with
  | nil => intro bs cs _ _; rfl
  | cons a as ih =>
    intro bs cs hab hbc
    cases bs with
    | nil => exact absurd hab (by simp [lexLe])
    | cons b bs =>
      cases cs with
      | nil => exact absurd hbc (by simp [lexLe])
      | cons c cs =>
        unfold lexLe at hab hbc ⊢
        by_cases h1 : a.toNat < b.toNat
        · by_cases h2 : b.toNat < c.toNat
          · rw [if_pos (by omega : a.toNat < c.toNat)]
          · by_cases h3 : c.toNat < b.toNat
            · rw [if_pos h3] at hbc
              exact absurd hbc (by simp; omega)
            · rw [if_pos (by omega : a.toNat < c.toNat)]
        · by_cases h4 : b.toNat < a.toNat
          · rw [if_neg h1, if_pos h4] at hab
            exact absurd hab (by simp)
          · by_cases h2 : b.toNat < c.toNat
            · rw [if_pos (by omega : a.toNat < c.toNat)]
            · by_cases h3 : c.toNat < b.toNat
              · rw [if_pos h3] at hbc
                exact absurd hbc (by simp; omega)
              · rw [if_neg (by omega : ¬a.toNat < c.toNat),
                  if_neg (by omega : ¬c.toNat < a.toNat)]
                rw [if_neg h1, if_neg h4] at hab
                rw [if_neg h2, if_neg h3] at hbc
                exact ih bs cs hab hbc

/-- The sort order `entry.second->category + entry.first` of
`CRPCTable::help`: `std::sort` on pairs whose first component is the
concatenated category and map key, compared as `std::string`. -/
def helpSortLE (a b : String × ContextFreeRPCCommand) : Prop :=
  lexLe a.1.data b.1.data = true

instance helpSortLEDecidable : DecidableRel helpSortLE := by
  intro a b
  unfold helpSortLE
  infer_instance

instance helpSortLETotal : IsTotal (String × ContextFreeRPCCommand) helpSortLE :=
  ⟨fun a b => lexLe_total a.1.data b.1.data⟩

instance helpSortLETrans : IsTrans (String × ContextFreeRPCCommand) helpSortLE :=
  ⟨fun _ _ _ hab hbc => lexLe_trans _ _ _ hab hbc⟩

/-- The sorted enumeration built by `CRPCTable::help`: each map entry
tagged with the key `category + name`, sorted ascending by that key
(`std::sort` on `vCommands`; ties between equal keys are unspecified in
the source and resolved stably here). -/
def CRPCTable.sortedHelpList (t : CRPCTable) :
    List (String × ContextFreeRPCCommand) :=
  List.insertionSort helpSortLE
    (t.mapCommands.map (fun e => (e.2.category ++ e.1, e.2)))

/-- `CRPCTable::help(config, strCommand, helpreq)`: run the loop over the
sorted enumeration, fall back to the unknown-command message when nothing
was produced, and strip the final newline character. -/
def CRPCTable.help (t : CRPCTable) (strCommand : String)
    (helpreq : JSONRPCRequest) : Except Exc String :=
  match helpLoop strCommand helpreq ⟨"", "", []⟩ t.sortedHelpList with
  | .error err => .error err
  | .ok acc =>
    let strRet :=
      if acc.strRet = "" then "help: unknown command: " ++ strCommand ++ "\n"
      else acc.strRet
    .ok (dropLastChar strRet)

/-! ### Deferred timers (`RPCRunLater`) -/

/-- A created timer, as observable through the timer map: which factory
made it, the callback it will run (identified by a token), and its delay
in milliseconds. -/
structure RPCTimerBase where
  factory : String
  callback : Nat
  millis : Int
deriving DecidableEq

/-- A pluggable timer factory (`RPCTimerInterface`): a name and the
`NewTimer(func, millis)` capability. -/
structure RPCTimerInterface where
  Name : String
  NewTimer : Nat → Int → RPCTimerBase

/-- The timer-related globals of `server.cpp`: the installed interface
pointer and the name-keyed `deadlineTimers` map. -/
structure TimerState where
  timerInterface : Option RPCTimerInterface
  deadlineTimers : List (String × RPCTimerBase)

/-- `map::emplace`: insert only when the key is absent. -/
def mapEmplace (l : List (String × RPCTimerBase)) (k : String)
    (v : RPCTimerBase) : List (String × RPCTimerBase) :=
  if (l.lookup k).isSome then l else l ++ [(k, v)]

/-- `RPCSetTimerInterfaceIfUnset`: install the factory only when none is
installed. -/
def RPCSetTimerInterfaceIfUnset (st : TimerState) (iface : RPCTimerInterface) :
    TimerState :=
  match st.timerInterface with
  | none => { st with timerInterface := some iface }
  | some _ => st

/-- `RPCRunLater(name, func, nSeconds)`: fail with `RPC_INTERNAL_ERROR`
when no timer interface is installed; otherwise erase any timer under the
name and store `NewTimer(func, nSeconds * 1000)` under it. -/
def RPCRunLater (st : TimerState) (name : String) (func : Nat)
    (nSeconds : Int) : Except Exc Unit × TimerState :=
  match st.timerInterface with
  | none =>
    (.error (.rpc ⟨RPC_INTERNAL_ERROR, "No timer handler registered for RPC"⟩), st)
  | some iface =>
    let timers := eraseKey st.deadlineTimers name
    (.ok (),
     { st with deadlineTimers :=
         mapEmplace timers name (iface.NewTimer func (nSeconds * 1000)) })

/-! ### Helper lemmas -/

theorem eraseIdx_append_self {α : Type} (l : List α) (x : α) :
    (l ++ [x]).eraseIdx l.length = l := by
  induction l with
  | nil => rfl
  | cons a rest ih => simpa [List.eraseIdx] using ih

theorem lookup_append_self {α : Type} (l : List (String × α)) (k : String)
    (v : α) (h : l.lookup k = none) : (l ++ [(k, v)]).lookup k = some v := by
  induction l with
  | nil => simp [List.lookup]
  | cons e rest ih =>
    simp only [List.lookup, List.cons_append] at h ⊢
    cases hk : (k == e.1) with
    | true => simp [hk] at h
    | false => simp only [hk] at h ⊢; exact ih h

theorem lookup_append_ne {α : Type} (l : List (String × α)) (k k₂ : String)
    (v : α) (h : k₂ ≠ k) : (l ++ [(k, v)]).lookup k₂ = l.lookup k₂ := by
  induction l with
  | nil =>
    have hk : (k₂ == k) = false := beq_eq_false_iff_ne.mpr h
    simp [List.lookup, hk]
  | cons e rest ih =>
    simp only [List.lookup, List.cons_append]
    cases hk : (k₂ == e.1) with
    | true => rfl
    | false => exact ih

theorem lookup_eraseKey_self {α : Type} (l : List (String × α)) (k : String) :
    (eraseKey l k).lookup k = none := by
  induction l with
  | nil => rfl
  | cons e rest ih =>
    show (if e.1 = k then eraseKey rest k else e :: eraseKey rest k).lookup k = none
    by_cases he : e.1 = k
    · rw [if_pos he]
      exact ih
    · rw [if_neg he]
      have hk : (k == e.1) = false :=
        beq_eq_false_iff_ne.mpr (fun hkk => he hkk.symm)
      simp only [List.lookup, hk]
      exact ih

theorem lookup_eraseKey_none {α : Type} (l : List (String × α)) (k a : String)
    (h : l.lookup a = none) : (eraseKey l k).lookup a = none := by
  induction l with
  | nil => rfl
  | cons e rest ih =>
    simp only [List.lookup] at h
    cases ha : (a == e.1) with
    | true => rw [ha] at h; exact absurd h (by simp)
    | false =>
      rw [ha] at h
      show (if e.1 = k then eraseKey rest k else e :: eraseKey rest k).lookup a = none
      by_cases he : e.1 = k
      · rw [if_pos he]
        exact ih h
      · rw [if_neg he]
        simp only [List.lookup, ha]
        exact ih h

/-- Trackers are restored on every path of `CRPCTable::execute` (the RAII
destructor of `RPCCommandExecution` erases the inserted entry). -/
theorem execute_tracker_eq (t : CRPCTable) (warm : WarmupState)
    (tracker : List RPCCommandExecutionInfo) (now : Int)
    (request : JSONRPCRequest) :
    (t.execute warm tracker now request).tracker = tracker := by
  unfold CRPCTable.execute
  split
  · rfl
  · split
    · rfl
    · simp only [RPCCommandExecution.begin, RPCCommandExecution.finish]
      split
      · split
        · exact eraseIdx_append_self tracker _
        · exact eraseIdx_append_self tracker _
      · exact eraseIdx_append_self tracker _

/-- Trackers are restored on every path of `RPCServer::ExecuteCommand`. -/
theorem executeCommand_tracker_eq (srv : RPCServer) (t : CRPCTable)
    (warm : WarmupState) (tracker : List RPCCommandExecutionInfo) (now : Int)
    (request : JSONRPCRequest) :
    (srv.ExecuteCommand t warm tracker now request).tracker = tracker := by
  unfold RPCServer.ExecuteCommand
  split
  · rfl
  · split
    · rfl
    · exact execute_tracker_eq t warm tracker now request

/-! ### Claim theorems -/

/-- C1: while the warmup flag is set, both `RPCServer::ExecuteCommand` and
`CRPCTable::execute` fail with an `RPC_IN_WARMUP` error whose message is
the current warmup status string, for every request, before any registry
lookup: no handler is invoked, no execution-tracker entry is created, and
the tracker is unchanged, regardless of method name or parameter shape. -/
theorem C1_warmup_gate (srv : RPCServer) (t : CRPCTable) (warm : WarmupState)
    (tracker : List RPCCommandExecutionInfo) (now : Int)
    (request : JSONRPCRequest) (h : warm.fRPCInWarmup = true) :
    t.execute warm tracker now request =
      ⟨.error (.rpc ⟨RPC_IN_WARMUP, warm.rpcWarmupStatus⟩), tracker, false, none⟩ ∧
    srv.ExecuteCommand t warm tracker now request =
      ⟨.error (.rpc ⟨RPC_IN_WARMUP, warm.rpcWarmupStatus⟩), tracker, false, none⟩ := by
  constructor
  · unfold CRPCTable.execute
    rw [if_pos h]
  · unfold RPCServer.ExecuteCommand
    rw [if_pos h]

/-- C1 witness: a concrete request against concrete registries while in
warmup yields the warmup error with the current status text. -/
theorem C1_warmup_gate_witness :
    CRPCTable.execute ⟨[]⟩ ⟨true, "still booting"⟩ [] 0 ⟨"getinfo", .vnull, .vnull, false⟩ =
      ⟨.error (.rpc ⟨RPC_IN_WARMUP, "still booting"⟩), [], false, none⟩ ∧
    RPCServer.ExecuteCommand ⟨[]⟩ ⟨[]⟩ ⟨true, "still booting"⟩ [] 0
        ⟨"getinfo", .vnull, .vnull, false⟩ =
      ⟨.error (.rpc ⟨RPC_IN_WARMUP, "still booting"⟩), [], false, none⟩ :=
  C1_warmup_gate ⟨[]⟩ ⟨[]⟩ ⟨true, "still booting"⟩ [] 0
    ⟨"getinfo", .vnull, .vnull, false⟩ rfl

/-- C2: out of warmup, resolution consults the dynamic registry first: a
dynamic hit executes that descriptor's own `Execute` directly (its result
is returned, untransformed, untracked); a dynamic miss falls through to
the static table unchanged; and when both registries miss, execution
fails with `RPC_METHOD_NOT_FOUND`. -/
theorem C2_resolution_order (srv : RPCServer) (t : CRPCTable)
    (warm : WarmupState) (tracker : List RPCCommandExecutionInfo) (now : Int)
    (request : JSONRPCRequest) (hw : warm.fRPCInWarmup = false) :
    (∀ cmd, srv.commands.lookup request.strMethod = some cmd →
      srv.ExecuteCommand t warm tracker now request =
        ⟨cmd.Execute request, tracker, true, some tracker⟩) ∧
    (srv.commands.lookup request.strMethod = none →
      srv.ExecuteCommand t warm tracker now request =
        t.execute warm tracker now request) ∧
    (srv.commands.lookup request.strMethod = none →
      t.find? request.strMethod = none →
      (srv.ExecuteCommand t warm tracker now request).result =
        .error (.rpc ⟨RPC_METHOD_NOT_FOUND, "Method not found"⟩)) := by
  refine ⟨fun cmd hdyn => ?_, fun hdyn => ?_, fun hdyn hstat => ?_⟩
  · unfold RPCServer.ExecuteCommand
    rw [if_neg (by simp [hw]), hdyn]
  · unfold RPCServer.ExecuteCommand
    rw [if_neg (by simp [hw]), hdyn]
  · unfold RPCServer.ExecuteCommand
    rw [if_neg (by simp [hw]), hdyn]
    unfold CRPCTable.execute
    rw [if_neg (by simp [hw]), hstat]

/-- C2 witness: a dynamic command shadows execution, a dynamic miss falls
through, and a miss in both registries yields method-not-found. -/
theorem C2_resolution_order_witness :
    (RPCServer.ExecuteCommand ⟨[("ping", ⟨"ping", fun _ => .ok (.vstr "pong")⟩)]⟩
        ⟨[]⟩ ⟨false, "done"⟩ [] 0 ⟨"ping", .vobj [("x", .vnum 1)], .vnull, false⟩ =
      ⟨.ok (.vstr "pong"), [], true, some []⟩) ∧
    (RPCServer.ExecuteCommand ⟨[("ping", ⟨"ping", fun _ => .ok (.vstr "pong")⟩)]⟩
        ⟨[]⟩ ⟨false, "done"⟩ [] 0 ⟨"nosuch", .varr [], .vnull, false⟩ =
      CRPCTable.execute ⟨[]⟩ ⟨false, "done"⟩ [] 0 ⟨"nosuch", .varr [], .vnull, false⟩) ∧
    ((RPCServer.ExecuteCommand ⟨[("ping", ⟨"ping", fun _ => .ok (.vstr "pong")⟩)]⟩
        ⟨[]⟩ ⟨false, "done"⟩ [] 0 ⟨"nosuch", .varr [], .vnull, false⟩).result =
      .error (.rpc ⟨RPC_METHOD_NOT_FOUND, "Method not found"⟩)) := by
  refine ⟨?_, ?_, ?_⟩
  · exact (C2_resolution_order ⟨[("ping", ⟨"ping", fun _ => .ok (.vstr "pong")⟩)]⟩
      ⟨[]⟩ ⟨false, "done"⟩ [] 0 ⟨"ping", .vobj [("x", .vnum 1)], .vnull, false⟩ rfl).1 _ rfl
  · exact (C2_resolution_order ⟨[("ping", ⟨"ping", fun _ => .ok (.vstr "pong")⟩)]⟩
      ⟨[]⟩ ⟨false, "done"⟩ [] 0 ⟨"nosuch", .varr [], .vnull, false⟩ rfl).2.1 rfl
  · exact (C2_resolution_order ⟨[("ping", ⟨"ping", fun _ => .ok (.vstr "pong")⟩)]⟩
      ⟨[]⟩ ⟨false, "done"⟩ [] 0 ⟨"nosuch", .varr [], .vnull, false⟩ rfl).2.2 rfl rfl

/-- C7: `CRPCTable::appendCommand` returns false and leaves the table
unchanged when the server is running or the name is already mapped;
otherwise it inserts the mapping (leaving every other name's lookup
unchanged) and returns true. -/
theorem C7_appendCommand (t : CRPCTable) (running : Bool) (name : String)
    (pcmd : ContextFreeRPCCommand) :
    (running = true → t.appendCommand running name pcmd = (false, t)) ∧
    (∀ c₀, t.find? name = some c₀ →
      t.appendCommand running name pcmd = (false, t)) ∧
    (running = false → t.find? name = none →
      t.appendCommand running name pcmd =
        (true, ⟨t.mapCommands ++ [(name, pcmd)]⟩) ∧
      (t.appendCommand running name pcmd).2.find? name = some pcmd ∧
      (∀ k, k ≠ name →
        (t.appendCommand running name pcmd).2.find? k = t.find? k)) := by
  refine ⟨fun hr => ?_, fun c₀ hc => ?_, fun hr hn => ?_⟩
  · unfold CRPCTable.appendCommand
    rw [if_pos hr]
  · unfold CRPCTable.appendCommand
    cases running with
    | true => rfl
    | false =>
      simp only [Bool.false_eq_true, if_false]
      unfold CRPCTable.find? at hc
      rw [hc]
  · have happ : t.appendCommand running name pcmd =
        (true, ⟨t.mapCommands ++ [(name, pcmd)]⟩) := by
      unfold CRPCTable.appendCommand
      rw [hr]
      simp only [Bool.false_eq_true, if_false]
      unfold CRPCTable.find? at hn
      rw [hn]
    refine ⟨happ, ?_, fun k hk => ?_⟩
    · rw [happ]
      exact lookup_append_self t.mapCommands name pcmd hn
    · rw [happ]
      exact lookup_append_ne t.mapCommands name k pcmd hk

/-- C7 witness: while running registration fails; a duplicate fails; a
fresh registration succeeds and is afterwards found under its name while
other names are unaffected. -/
theorem C7_appendCommand_witness :
    (CRPCTable.appendCommand ⟨[]⟩ true "getinfo"
        ⟨"control", "getinfo", fun _ => .ok .vnull, [], 7⟩ = (false, ⟨[]⟩)) ∧
    (CRPCTable.appendCommand
        ⟨[("getinfo", ⟨"control", "getinfo", fun _ => .ok .vnull, [], 7⟩)]⟩
        false "getinfo" ⟨"net", "getinfo", fun _ => .ok .vnull, [], 8⟩ =
      (false, ⟨[("getinfo", ⟨"control", "getinfo", fun _ => .ok .vnull, [], 7⟩)]⟩)) ∧
    (CRPCTable.appendCommand ⟨[]⟩ false "getinfo"
        ⟨"control", "getinfo", fun _ => .ok .vnull, [], 7⟩ =
      (true, ⟨[("getinfo", ⟨"control", "getinfo", fun _ => .ok .vnull, [], 7⟩)]⟩)) ∧
    ((CRPCTable.appendCommand ⟨[]⟩ false "getinfo"
        ⟨"control", "getinfo", fun _ => .ok .vnull, [], 7⟩).2.find? "getinfo" =
      some ⟨"control", "getinfo", fun _ => .ok .vnull, [], 7⟩) := by
  refine ⟨?_, ?_, ?_, ?_⟩
  · exact (C7_appendCommand ⟨[]⟩ true "getinfo"
      ⟨"control", "getinfo", fun _ => .ok .vnull, [], 7⟩).1 rfl
  · exact (C7_appendCommand
      ⟨[("getinfo", ⟨"control", "getinfo", fun _ => .ok .vnull, [], 7⟩)]⟩
      false "getinfo" ⟨"net", "getinfo", fun _ => .ok .vnull, [], 8⟩).2.1 _ rfl
  · exact ((C7_appendCommand ⟨[]⟩ false "getinfo"
      ⟨"control", "getinfo", fun _ => .ok .vnull, [], 7⟩).2.2 rfl rfl).1
  · exact ((C7_appendCommand ⟨[]⟩ false "getinfo"
      ⟨"control", "getinfo", fun _ => .ok .vnull, [], 7⟩).2.2 rfl rfl).2.1

/-- C9: `RPCRunLater` fails with `RPC_INTERNAL_ERROR` ("No timer handler
registered for RPC") when no timer interface is installed, leaving the
timer map unchanged; otherwise it removes any timer stored under the name
and stores the factory's `NewTimer(func, nSeconds * 1000)` under it. -/
theorem C9_rpcRunLater (st : TimerState) (name : String) (func : Nat)
    (nSeconds : Int) :
    (st.timerInterface = none →
      RPCRunLater st name func nSeconds =
        (.error (.rpc ⟨RPC_INTERNAL_ERROR, "No timer handler registered for RPC"⟩),
         st)) ∧
    (∀ iface, st.timerInterface = some iface →
      RPCRunLater st name func nSeconds =
        (.ok (), ⟨st.timerInterface,
          eraseKey st.deadlineTimers name ++
            [(name, iface.NewTimer func (nSeconds * 1000))]⟩) ∧
      ((RPCRunLater st name func nSeconds).2.deadlineTimers.lookup name =
        some (iface.NewTimer func (nSeconds * 1000)))) := by
  refine ⟨fun hnone => ?_, fun iface hsome => ?_⟩
  · unfold RPCRunLater
    rw [hnone]
  · have hrun : RPCRunLater st name func nSeconds =
        (.ok (), ⟨st.timerInterface,
          eraseKey st.deadlineTimers name ++
            [(name, iface.NewTimer func (nSeconds * 1000))]⟩) := by
      simp only [RPCRunLater, hsome]
      simp [mapEmplace, lookup_eraseKey_self]
    refine ⟨hrun, ?_⟩
    rw [hrun]
    exact lookup_append_self _ _ _ (lookup_eraseKey_self st.deadlineTimers name)

/-- C9 witness: with no interface the call fails and the map is unchanged;
with an interface the prior timer under the name is replaced by a timer
with delay `nSeconds * 1000` milliseconds. -/
theorem C9_rpcRunLater_witness :
    (RPCRunLater ⟨none, [("shutdown", ⟨"old", 0, 1⟩)]⟩ "shutdown" 5 2 =
      (.error (.rpc ⟨RPC_INTERNAL_ERROR, "No timer handler registered for RPC"⟩),
       ⟨none, [("shutdown", ⟨"old", 0, 1⟩)]⟩)) ∧
    (RPCRunLater ⟨some ⟨"HTTP", fun f ms => ⟨"HTTP", f, ms⟩⟩,
        [("shutdown", ⟨"old", 0, 1⟩)]⟩ "shutdown" 5 2 =
      (.ok (), ⟨some ⟨"HTTP", fun f ms => ⟨"HTTP", f, ms⟩⟩,
        [("shutdown", ⟨"HTTP", 5, 2000⟩)]⟩)) := by
  constructor
  · exact (C9_rpcRunLater ⟨none, [("shutdown", ⟨"old", 0, 1⟩)]⟩ "shutdown" 5 2).1 rfl
  · exact ((C9_rpcRunLater ⟨some ⟨"HTTP", fun f ms => ⟨"HTTP", f, ms⟩⟩,
      [("shutdown", ⟨"old", 0, 1⟩)]⟩ "shutdown" 5 2).2 _ rfl).1

/-- C10: `RPCServer::RegisterCommand` with a null pointer leaves the
dynamic registry unchanged and raises no error, and registering a name
already present keeps the registry exactly as it was (the map insert does
not overwrite), so the first-registered descriptor stays. -/
theorem C10_registerCommand (srv : RPCServer) :
    (srv.RegisterCommand none = srv) ∧
    (∀ cmd c₀, srv.commands.lookup cmd.name = some c₀ →
      srv.RegisterCommand (some cmd) = srv) := by
  refine ⟨rfl, fun cmd c₀ hc => ?_⟩
  have hs : (srv.commands.lookup cmd.name).isSome = true := by
    rw [hc]
    rfl
  show (if (srv.commands.lookup cmd.name).isSome = true then srv
        else { commands := srv.commands ++ [(cmd.name, cmd)] }) = srv
  rw [if_pos hs]

/-- C10 witness: a null registration is a no-op, and re-registering the
name "ping" keeps the first descriptor's registry intact. -/
theorem C10_registerCommand_witness :
    (RPCServer.RegisterCommand ⟨[("ping", ⟨"ping", fun _ => .ok (.vstr "one")⟩)]⟩
        none = ⟨[("ping", ⟨"ping", fun _ => .ok (.vstr "one")⟩)]⟩) ∧
    (RPCServer.RegisterCommand ⟨[("ping", ⟨"ping", fun _ => .ok (.vstr "one")⟩)]⟩
        (some ⟨"ping", fun _ => .ok (.vstr "two")⟩) =
      ⟨[("ping", ⟨"ping", fun _ => .ok (.vstr "one")⟩)]⟩) := by
  constructor
  · exact (C10_registerCommand ⟨[("ping", ⟨"ping", fun _ => .ok (.vstr "one")⟩)]⟩).1
  · exact (C10_registerCommand ⟨[("ping", ⟨"ping", fun _ => .ok (.vstr "one")⟩)]⟩).2
      ⟨"ping", fun _ => .ok (.vstr "two")⟩ ⟨"ping", fun _ => .ok (.vstr "one")⟩ rfl

/-- A lookup that misses the working named-argument map keeps missing it
throughout the walk (the map only ever shrinks, by `eraseKey`). -/
theorem foldl_transformStep_lookup_none (l : List String) (acc : TransformAcc)
    (a : String) (h : acc.argsIn.lookup a = none) :
    ((l.foldl transformStep acc).argsIn).lookup a = none := by
  induction l generalizing acc with
  | nil => exact h
  | cons p rest ih =>
    simp only [List.foldl_cons]
    apply ih
    unfold transformStep
    cases hfa : findAlias acc.argsIn (splitPipe p) with
    | none => exact h
    | some av => exact lookup_eraseKey_none acc.argsIn av.1 a h

/-- When every alias misses the map, the alias-group search misses. -/
theorem findAlias_eq_none (argsIn : List (String × UniValue))
    (aliases : List String) (h : ∀ a ∈ aliases, argsIn.lookup a = none) :
    findAlias argsIn aliases = none := by
  induction aliases with
  | nil => rfl
  | cons a rest ih =>
    unfold findAlias
    rw [h a (List.mem_cons_self a rest)]
    exact ih (fun x hx => h x (List.mem_cons_of_mem a hx))

/-- A declared parameter none of whose aliases is present only bumps the
skip counter. -/
theorem transformStep_hole (acc : TransformAcc) (p : String)
    (h : findAlias acc.argsIn (splitPipe p) = none) :
    transformStep acc p = ⟨acc.argsIn, acc.outParams, acc.hole + 1⟩ := by
  unfold transformStep
  rw [h]

/-- C3: with declared names ["a", "b|c", "d"], the object params
containing d ↦ 4 and b ↦ 2 transform to the positional sequence
[null, 2, 4] (the hole before the alias-matched "b" becomes an explicit
null); the object param x ↦ 1 fails with an unknown-named-parameter
error naming "x" under `RPC_INVALID_PARAMETER`; and a trailing declared
parameter none of whose aliases occur among the request's named arguments
is never emitted (dropping it leaves the transform unchanged). -/
theorem C3_transformNamedArguments :
    (∀ r : JSONRPCRequest,
      transformNamedArguments
          { r with params := .vobj [("d", .vnum 4), ("b", .vnum 2)] }
          ["a", "b|c", "d"] =
        .ok { r with params := .varr [.vnull, .vnum 2, .vnum 4] }) ∧
    (∀ r : JSONRPCRequest,
      transformNamedArguments { r with params := .vobj [("x", .vnum 1)] }
          ["a", "b|c", "d"] =
        .error (.rpc ⟨RPC_INVALID_PARAMETER, "Unknown named parameter x"⟩)) ∧
    (∀ (r : JSONRPCRequest) (argNames : List String) (p : String),
      (∀ a ∈ splitPipe p,
        (buildArgsIn r.params.getObjEntries).lookup a = none) →
      transformNamedArguments r (argNames ++ [p]) =
        transformNamedArguments r argNames) := by
  refine ⟨fun r => rfl, fun r => rfl, fun r argNames p h => ?_⟩
  unfold transformNamedArguments
  rw [List.foldl_append]
  have hnone : findAlias
      ((argNames.foldl transformStep
        ⟨buildArgsIn r.params.getObjEntries, [], 0⟩).argsIn) (splitPipe p) = none := by
    apply findAlias_eq_none
    intro a ha
    exact foldl_transformStep_lookup_none argNames _ a (h a ha)
  simp only [List.foldl_cons, List.foldl_nil]
  rw [transformStep_hole _ p hnone]

/-- C3 witness: the trailing-parameter clause at a concrete input: with
params b ↦ 2, dropping the trailing unmatched "d" leaves the transform
unchanged, and indeed no placeholder for "d" is emitted. -/
theorem C3_transformNamedArguments_witness :
    (transformNamedArguments ⟨"m", .vobj [("b", .vnum 2)], .vnull, false⟩
        (["a", "b|c"] ++ ["d"]) =
      transformNamedArguments ⟨"m", .vobj [("b", .vnum 2)], .vnull, false⟩
        ["a", "b|c"]) ∧
    (transformNamedArguments ⟨"m", .vobj [("b", .vnum 2)], .vnull, false⟩
        ["a", "b|c", "d"] =
      .ok ⟨"m", .varr [.vnull, .vnum 2], .vnull, false⟩) := by
  constructor
  · refine C3_transformNamedArguments.2.2 ⟨"m", .vobj [("b", .vnum 2)], .vnull, false⟩
      ["a", "b|c"] "d" ?_
    intro a ha
    have hd : splitPipe "d" = ["d"] := rfl
    rw [hd] at ha
    have hda : a = "d" := by simpa using ha
    subst hda
    rfl
  · rfl

/-- C4: inside a static command's tracked invocation, a non-RPC-shaped
error (from the handler body; the argument transform itself only raises
RPC-shaped errors) is caught once in `CRPCTable::execute` and re-thrown as
`RPC_MISC_ERROR` with the original message (the original code is lost);
an RPC-shaped error — from the handler or from the argument transform —
is not caught and propagates with code and message unchanged. -/
theorem C4_error_normalization (t : CRPCTable) (warm : WarmupState)
    (tracker : List RPCCommandExecutionInfo) (now : Int)
    (request : JSONRPCRequest) (pcmd : ContextFreeRPCCommand)
    (hw : warm.fRPCInWarmup = false)
    (hf : t.find? request.strMethod = some pcmd) :
    (∀ m, request.params.isObject = false →
      pcmd.call request = .error (.std m) →
      (t.execute warm tracker now request).result =
        .error (.rpc ⟨RPC_MISC_ERROR, m⟩)) ∧
    (∀ e, request.params.isObject = false →
      pcmd.call request = .error (.rpc e) →
      (t.execute warm tracker now request).result = .error (.rpc e)) ∧
    (∀ req2 m, request.params.isObject = true →
      transformNamedArguments request pcmd.argNames = .ok req2 →
      pcmd.call req2 = .error (.std m) →
      (t.execute warm tracker now request).result =
        .error (.rpc ⟨RPC_MISC_ERROR, m⟩)) ∧
    (∀ req2 e, request.params.isObject = true →
      transformNamedArguments request pcmd.argNames = .ok req2 →
      pcmd.call req2 = .error (.rpc e) →
      (t.execute warm tracker now request).result = .error (.rpc e)) ∧
    (∀ e, request.params.isObject = true →
      transformNamedArguments request pcmd.argNames = .error (.rpc e) →
      (t.execute warm tracker now request).result = .error (.rpc e)) := by
  refine ⟨fun m hob hcall => ?_, fun e hob hcall => ?_,
    fun req2 m hob htr hcall => ?_, fun req2 e hob htr hcall => ?_,
    fun e hob htr => ?_⟩
  · simp [CRPCTable.execute, hw, hf, hob, hcall, wrapMiscError]
  · simp [CRPCTable.execute, hw, hf, hob, hcall, wrapMiscError]
  · simp [CRPCTable.execute, hw, hf, hob, htr, hcall, wrapMiscError]
  · simp [CRPCTable.execute, hw, hf, hob, htr, hcall, wrapMiscError]
  · simp [CRPCTable.execute, hw, hf, hob, htr, wrapMiscError]

/-- C4 witness: a handler raising a generic error surfaces as
`RPC_MISC_ERROR` with the same message, while RPC-shaped errors (from a
handler and from the transform of an unknown named argument) keep their
code and message. -/
theorem C4_error_normalization_witness :
    ((CRPCTable.execute
        ⟨[("boom", ⟨"misc", "boom", fun _ => .error (.std "disk full"), [], 0⟩)]⟩
        ⟨false, "done"⟩ [] 0 ⟨"boom", .varr [], .vnull, false⟩).result =
      .error (.rpc ⟨RPC_MISC_ERROR, "disk full"⟩)) ∧
    ((CRPCTable.execute
        ⟨[("bad", ⟨"misc", "bad", fun _ => .error (.rpc ⟨RPC_TYPE_ERROR, "nope"⟩), [], 0⟩)]⟩
        ⟨false, "done"⟩ [] 0 ⟨"bad", .varr [], .vnull, false⟩).result =
      .error (.rpc ⟨RPC_TYPE_ERROR, "nope"⟩)) ∧
    ((CRPCTable.execute
        ⟨[("obj", ⟨"misc", "obj", fun _ => .error (.std "kaput"), ["a"], 0⟩)]⟩
        ⟨false, "done"⟩ [] 0 ⟨"obj", .vobj [("a", .vnum 1)], .vnull, false⟩).result =
      .error (.rpc ⟨RPC_MISC_ERROR, "kaput"⟩)) ∧
    ((CRPCTable.execute
        ⟨[("obj", ⟨"misc", "obj", fun _ => .ok .vnull, ["a"], 0⟩)]⟩
        ⟨false, "done"⟩ [] 0 ⟨"obj", .vobj [("zz", .vnum 1)], .vnull, false⟩).result =
      .error (.rpc ⟨RPC_INVALID_PARAMETER, "Unknown named parameter zz"⟩)) := by
  refine ⟨?_, ?_, ?_, ?_⟩
  · exact (C4_error_normalization
      ⟨[("boom", ⟨"misc", "boom", fun _ => .error (.std "disk full"), [], 0⟩)]⟩
      ⟨false, "done"⟩ [] 0 ⟨"boom", .varr [], .vnull, false⟩
      ⟨"misc", "boom", fun _ => .error (.std "disk full"), [], 0⟩ rfl rfl).1
      "disk full" rfl rfl
  · exact (C4_error_normalization
      ⟨[("bad", ⟨"misc", "bad", fun _ => .error (.rpc ⟨RPC_TYPE_ERROR, "nope"⟩), [], 0⟩)]⟩
      ⟨false, "done"⟩ [] 0 ⟨"bad", .varr [], .vnull, false⟩
      ⟨"misc", "bad", fun _ => .error (.rpc ⟨RPC_TYPE_ERROR, "nope"⟩), [], 0⟩ rfl rfl).2.1
      ⟨RPC_TYPE_ERROR, "nope"⟩ rfl rfl
  · exact (C4_error_normalization
      ⟨[("obj", ⟨"misc", "obj", fun _ => .error (.std "kaput"), ["a"], 0⟩)]⟩
      ⟨false, "done"⟩ [] 0 ⟨"obj", .vobj [("a", .vnum 1)], .vnull, false⟩
      ⟨"misc", "obj", fun _ => .error (.std "kaput"), ["a"], 0⟩ rfl rfl).2.2.1
      ⟨"obj", .varr [.vnum 1], .vnull, false⟩ "kaput" rfl rfl rfl
  · exact (C4_error_normalization
      ⟨[("obj", ⟨"misc", "obj", fun _ => .ok .vnull, ["a"], 0⟩)]⟩
      ⟨false, "done"⟩ [] 0 ⟨"obj", .vobj [("zz", .vnum 1)], .vnull, false⟩
      ⟨"misc", "obj", fun _ => .ok .vnull, ["a"], 0⟩ rfl rfl).2.2.2.2
      ⟨RPC_INVALID_PARAMETER, "Unknown named parameter zz"⟩ rfl rfl

/-- C6 counterexample: a request dispatched to a dynamically registered
command has its handler invoked while the active-commands list is exactly
the pre-dispatch list (empty here): no execution-tracker entry
{method, start time} is ever inserted for it, contradicting the claim
that one is inserted before every dispatched request's handler
invocation. -/
theorem C6_counterexample :
    (RPCServer.ExecuteCommand ⟨[("dyn", ⟨"dyn", fun _ => .ok (.vstr "ran")⟩)]⟩
        ⟨[]⟩ ⟨false, "done"⟩ [] 0 ⟨"dyn", .varr [], .vnull, false⟩ =
      ⟨.ok (.vstr "ran"), [], true, some []⟩) ∧
    some ([] : List RPCCommandExecutionInfo) ≠
      some [(⟨"dyn", 0⟩ : RPCCommandExecutionInfo)] := by
  constructor
  · rfl
  · intro h
    have h2 := Option.some.inj h
    exact absurd (congrArg List.length h2) (by decide)

/-- C6 (amended): the tracker is restored on every exit path of both
dispatch entry points (normal return, RPC-shaped error, any other
exception), so the active-commands list after a dispatch equals the list
before it; for a request that reaches a static command's handler, the
entry {method, now} is present — appended at the tail — exactly during
the invocation; a request served by a dynamically registered command
executes with the tracker unchanged and no entry of its own. -/
theorem C6_tracker_scoped (srv : RPCServer) (t : CRPCTable)
    (warm : WarmupState) (tracker : List RPCCommandExecutionInfo) (now : Int)
    (request : JSONRPCRequest) :
    ((t.execute warm tracker now request).tracker = tracker) ∧
    ((srv.ExecuteCommand t warm tracker now request).tracker = tracker) ∧
    ((t.execute warm tracker now request).trackerAtCall = none ∨
      (t.execute warm tracker now request).trackerAtCall =
        some (tracker ++ [⟨request.strMethod, now⟩])) ∧
    (∀ pcmd, warm.fRPCInWarmup = false →
      t.find? request.strMethod = some pcmd →
      request.params.isObject = false →
      (t.execute warm tracker now request).trackerAtCall =
        some (tracker ++ [⟨request.strMethod, now⟩]) ∧
      (t.execute warm tracker now request).handlerInvoked = true) ∧
    (∀ pcmd req2, warm.fRPCInWarmup = false →
      t.find? request.strMethod = some pcmd →
      request.params.isObject = true →
      transformNamedArguments request pcmd.argNames = .ok req2 →
      (t.execute warm tracker now request).trackerAtCall =
        some (tracker ++ [⟨request.strMethod, now⟩])) ∧
    (∀ cmd, warm.fRPCInWarmup = false →
      srv.commands.lookup request.strMethod = some cmd →
      (srv.ExecuteCommand t warm tracker now request).trackerAtCall =
        some tracker) := by
  refine ⟨execute_tracker_eq t warm tracker now request,
    executeCommand_tracker_eq srv t warm tracker now request,
    ?_, fun pcmd hw hf hob => ?_, fun pcmd req2 hw hf hob htr => ?_,
    fun cmd hw hdyn => ?_⟩
  · unfold CRPCTable.execute
    split
    · exact Or.inl rfl
    · split
      · exact Or.inl rfl
      · simp only [RPCCommandExecution.begin]
        split
        · split
          · exact Or.inl rfl
          · exact Or.inr rfl
        · exact Or.inr rfl
  · constructor
    · simp [CRPCTable.execute, hw, hf, hob, RPCCommandExecution.begin]
    · simp [CRPCTable.execute, hw, hf, hob]
  · simp [CRPCTable.execute, hw, hf, hob, htr, RPCCommandExecution.begin]
  · simp [RPCServer.ExecuteCommand, hw, hdyn]

/-- C6 witness for the amended claim: a static command's handler runs
with exactly the one appended entry, and the tracker is restored
afterwards. -/
theorem C6_tracker_scoped_witness :
    ((CRPCTable.execute ⟨[("up", ⟨"control", "up", fun _ => .ok .vnull, [], 0⟩)]⟩
        ⟨false, "done"⟩ [⟨"other", 5⟩] 9 ⟨"up", .varr [], .vnull, false⟩).trackerAtCall =
      some [⟨"other", 5⟩, ⟨"up", 9⟩]) ∧
    ((CRPCTable.execute ⟨[("up", ⟨"control", "up", fun _ => .ok .vnull, [], 0⟩)]⟩
        ⟨false, "done"⟩ [⟨"other", 5⟩] 9 ⟨"up", .varr [], .vnull, false⟩).tracker =
      [⟨"other", 5⟩]) := by
  constructor
  · exact ((C6_tracker_scoped ⟨[]⟩
      ⟨[("up", ⟨"control", "up", fun _ => .ok .vnull, [], 0⟩)]⟩
      ⟨false, "done"⟩ [⟨"other", 5⟩] 9 ⟨"up", .varr [], .vnull, false⟩).2.2.2.1
      ⟨"control", "up", fun _ => .ok .vnull, [], 0⟩ rfl rfl rfl).1
  · exact (C6_tracker_scoped ⟨[]⟩
      ⟨[("up", ⟨"control", "up", fun _ => .ok .vnull, [], 0⟩)]⟩
      ⟨false, "done"⟩ [⟨"other", 5⟩] 9 ⟨"up", .varr [], .vnull, false⟩).1

/-- One batch element never changes the tracker it was given (the
dispatch restores it and the failure paths never touch it). -/
theorem execOne_tracker_eq (srv : RPCServer) (t : CRPCTable)
    (warm : WarmupState) (tracker : List RPCCommandExecutionInfo) (now : Int)
    (jreq : JSONRPCRequest) (req : UniValue) :
    (JSONRPCExecOne srv t warm tracker now jreq req).2 = tracker := by
  unfold JSONRPCExecOne
  simp only []
  split
  · rfl
  · rfl
  · split
    · exact executeCommand_tracker_eq srv t warm tracker now _
    · exact executeCommand_tracker_eq srv t warm tracker now _
    · exact executeCommand_tracker_eq srv t warm tracker now _

/-- The batch loop is elementwise: every element is executed against the
same pre-batch state and the final tracker is the initial one. -/
theorem batchLoop_eq_map (srv : RPCServer) (t : CRPCTable) (warm : WarmupState)
    (now : Int) (jreq : JSONRPCRequest) (l : List UniValue)
    (tracker : List RPCCommandExecutionInfo) :
    batchLoop srv t warm now jreq l tracker =
      (l.map (fun r => (JSONRPCExecOne srv t warm tracker now jreq r).1),
       tracker) := by
  induction l with
  | nil => rfl
  | cons r rest ih =>
    simp only [batchLoop, execOne_tracker_eq, ih, List.map_cons]

/-- C5: `JSONRPCExecBatch` produces one reply envelope per element of the
batch, in order, each computed by executing that element alone against
the pre-batch state (one element's failure cannot affect a sibling, and
the tracker ends as it began); an element whose parse fails yields an
`RPC_PARSE_ERROR` envelope at its position; and the serialized reply is
the JSON array followed by a trailing newline. -/
theorem C5_batch (srv : RPCServer) (t : CRPCTable) (warm : WarmupState)
    (tracker : List RPCCommandExecutionInfo) (now : Int)
    (jreq : JSONRPCRequest) (vReq : UniValue) :
    (JSONRPCExecBatch srv t warm tracker now jreq vReq).1 =
      (UniValue.varr (vReq.getElems.map
        (fun r => (JSONRPCExecOne srv t warm tracker now jreq r).1))).write
        ++ "\n" ∧
    (JSONRPCExecBatch srv t warm tracker now jreq vReq).2 = tracker ∧
    (batchLoop srv t warm now jreq vReq.getElems tracker).1.length =
      vReq.getElems.length ∧
    (∀ req m, (JSONRPCRequest.parse jreq req).2 = some (.std m) →
      JSONRPCExecOne srv t warm tracker now jreq req =
        (JSONRPCReplyObj .vnull (RPCError.toUniValue ⟨RPC_PARSE_ERROR, m⟩)
          (JSONRPCRequest.parse jreq req).1.id, tracker)) := by
  refine ⟨?_, ?_, ?_, fun req m hp => ?_⟩
  · unfold JSONRPCExecBatch
    rw [batchLoop_eq_map]
  · unfold JSONRPCExecBatch
    rw [batchLoop_eq_map]
  · rw [batchLoop_eq_map]
    exact List.length_map _ _
  · unfold JSONRPCExecOne
    simp only [hp]

/-- C5 witness: a batch of a well-formed request for an unknown method
and an unparseable element yields, in order, a method-not-found envelope
and a parse-error envelope, serialized with a trailing newline; the
unparseable element alone satisfies the parse-failure clause. -/
theorem C5_batch_witness :
    ((JSONRPCExecBatch ⟨[]⟩ ⟨[]⟩ ⟨false, "done"⟩ [] 0 ⟨"", .vnull, .vnull, false⟩
        (.varr [.vobj [("method", .vstr "nosuch"), ("id", .vnum 1)], .vstr "oops"])).1 =
      (UniValue.varr
        [(JSONRPCExecOne ⟨[]⟩ ⟨[]⟩ ⟨false, "done"⟩ [] 0 ⟨"", .vnull, .vnull, false⟩
            (.vobj [("method", .vstr "nosuch"), ("id", .vnum 1)])).1,
         (JSONRPCExecOne ⟨[]⟩ ⟨[]⟩ ⟨false, "done"⟩ [] 0 ⟨"", .vnull, .vnull, false⟩
            (.vstr "oops")).1]).write ++ "\n") ∧
    (JSONRPCExecOne ⟨[]⟩ ⟨[]⟩ ⟨false, "done"⟩ [] 0 ⟨"", .vnull, .vnull, false⟩
        (.vstr "oops") =
      (JSONRPCReplyObj .vnull
        (RPCError.toUniValue ⟨RPC_PARSE_ERROR, "Invalid Request object"⟩) .vnull, [])) := by
  constructor
  · exact (C5_batch ⟨[]⟩ ⟨[]⟩ ⟨false, "done"⟩ [] 0 ⟨"", .vnull, .vnull, false⟩
      (.varr [.vobj [("method", .vstr "nosuch"), ("id", .vnum 1)], .vstr "oops"])).1
  · exact (C5_batch ⟨[]⟩ ⟨[]⟩ ⟨false, "done"⟩ [] 0 ⟨"", .vnull, .vnull, false⟩
      (.varr [])).2.2.2 (.vstr "oops") "Invalid Request object" rfl

/-! ### Spec-side rendering of the help listing

The following definitions follow the spec's words for section 4.6 (the
Help Aggregator) and serve as the reference the code's `CRPCTable::help`
is compared against: grouped output with one `"== Category =="` header
whenever the category changes, a blank separator line between groups, and
one first-line summary per command.
-/

/-- The header line the spec prescribes for a category. -/
def headerLine (c : String) : String :=
  "== " ++ Capitalize c ++ " =="

/-- Spec-side rendering, string form: walking (category, summary line)
pairs, emitting a header each time the category changes (preceded by a
blank line except at the start) and then the summary line. -/
def specRender : String → List (String × String) → String
  | _, [] => ""
  | prev, p :: rest =>
    (if p.1 ≠ prev then
      (if prev = "" then "" else "\n") ++ "== " ++ Capitalize p.1 ++ " ==\n"
     else "") ++ p.2 ++ "\n" ++ specRender p.1 rest

/-- Spec-side rendering, line-list form (used to count headers). -/
def specLines : String → List (String × String) → List String
  | _, [] => []
  | prev, p :: rest =>
    (if p.1 ≠ prev then
      (if prev = "" then [] else [""]) ++ [headerLine p.1]
     else []) ++ p.2 :: specLines p.1 rest

/-- Newline-terminated concatenation of a list of lines. -/
def joinLines : List String → String
  | [] => ""
  | s :: rest => s ++ "\n" ++ joinLines rest

/-- How many times the category sequence switches into `c`. -/
def changesTo (c : String) : String → List String → Nat
  | _, [] => 0
  | prev, x :: rest =>
    (if x ≠ prev ∧ x = c then 1 else 0) + changesTo c x rest

/-- Whether a category sequence consists of contiguous runs of pairwise
distinct categories (no category resumes after having been left). -/
def groupedCats : String → List String → List String → Bool
  | _, _, [] => true
  | prev, seen, x :: rest =>
    if x = prev then groupedCats prev seen rest
    else if seen.contains x then false
    else groupedCats x (prev :: seen) rest

/-- The lines of a text, split at newline characters. -/
def linesOf (s : String) : List String :=
  (splitOnChar '\n' s.data).map String.mk

/-- Merging the tail of a header with a following newline. -/
theorem header_newline_merge (x : String) :
    (" ==" : String) ++ ("\n" ++ x) = " ==\n" ++ x := by
  rw [← String.append_assoc]
  rfl

/-- Merging a blank separator line with a following header opener. -/
theorem sep_header_merge (x : String) :
    ("\n" : String) ++ ("== " ++ x) = "\n== " ++ x := by
  rw [← String.append_assoc]
  rfl

/-- Appending a newline and more text never yields the empty string. -/
theorem append_newline_ne_empty (s r : String) : s ++ "\n" ++ r ≠ "" := by
  intro h
  have hd := congrArg String.data h
  simp [String.data_append] at hd

/-- Stripping the final character undoes appending a newline. -/
theorem dropLastChar_append_newline (s : String) :
    dropLastChar (s ++ "\n") = s := by
  unfold dropLastChar
  rw [String.data_append]
  rw [List.dropLast_concat]

/-- A header line is never the empty (separator) line. -/
theorem headerLine_ne_empty (c : String) : headerLine c ≠ "" := by
  intro h
  unfold headerLine at h
  have hd := congrArg String.data h
  simp [String.data_append] at hd

theorem joinLines_append (xs ys : List String) :
    joinLines (xs ++ ys) = joinLines xs ++ joinLines ys := by
  induction xs with
  | nil => simp [joinLines]
  | cons x xs ih => simp [joinLines, ih, String.append_assoc]

/-- The two spec-side renderings agree. -/
theorem specRender_eq_joinLines (ps : List (String × String)) (prev : String) :
    specRender prev ps = joinLines (specLines prev ps) := by
  induction ps generalizing prev with
  | nil => rfl
  | cons p rest ih =>
    simp only [specRender, specLines]
    by_cases hc : p.1 ≠ prev
    · rw [if_pos hc, if_pos hc]
      by_cases hp : prev = ""
      · rw [if_pos hp, if_pos hp]
        simp [joinLines, headerLine, ih, String.append_assoc,
          header_newline_merge]
      · rw [if_neg hp, if_neg hp]
        simp [joinLines, headerLine, ih, String.append_assoc,
          header_newline_merge, sep_header_merge]
    · rw [if_neg hc, if_neg hc]
      simp [joinLines, ih, String.append_assoc]

/-- Counting a category's header among the rendered lines: the header for
`c` appears once per switch of the category sequence into `c`, provided no
summary line masquerades as that header and no other category renders the
same header text. -/
theorem count_specLines (c : String) (ps : List (String × String))
    (prev : String)
    (hcontent : ∀ p ∈ ps, p.2 ≠ headerLine c)
    (hinj : ∀ p ∈ ps, headerLine p.1 = headerLine c → p.1 = c) :
    (specLines prev ps).count (headerLine c) =
      changesTo c prev (ps.map Prod.fst) := by
  induction ps generalizing prev with
  | nil => rfl
  | cons p rest ih =>
    have hcontent2 := fun q hq => hcontent q (List.mem_cons_of_mem p hq)
    have hinj2 := fun q hq h => hinj q (List.mem_cons_of_mem p hq) h
    have hline : (p.2 == headerLine c) = false := by
      rw [beq_eq_false_iff_ne]
      exact hcontent p (List.mem_cons_self p rest)
    have hsep : (("" : String) == headerLine c) = false := by
      rw [beq_eq_false_iff_ne]
      exact fun h => headerLine_ne_empty c h.symm
    simp only [specLines, List.map_cons, changesTo]
    by_cases hc : p.1 ≠ prev
    · rw [if_pos hc]
      by_cases hpc : p.1 = c
      · have hhdr : (headerLine p.1 == headerLine c) = true := by
          rw [beq_iff_eq, hpc]
        have hcprev : ¬(c = prev) := by
          rw [← hpc]
          exact hc
        by_cases hp : prev = ""
        · rw [if_pos hp]
          simp only [List.count_cons, List.count_append, List.nil_append,
            List.count_nil, hline, hhdr, if_true, if_false,
            Bool.false_eq_true]
          rw [ih p.1 hcontent2 hinj2]
          simp [hc, hpc, hcprev]
        · rw [if_neg hp]
          simp only [List.count_cons, List.count_append, List.count_nil,
            List.singleton_append, hline, hsep, hhdr, if_true, if_false,
            Bool.false_eq_true]
          rw [ih p.1 hcontent2 hinj2]
          simp [hc, hpc, hcprev]
      · have hhdr : (headerLine p.1 == headerLine c) = false := by
          rw [beq_eq_false_iff_ne]
          exact fun h => hpc (hinj p (List.mem_cons_self p rest) h)
        have hterm : (if p.1 ≠ prev ∧ p.1 = c then 1 else 0) = 0 := by
          simp [hpc]
        rw [hterm]
        by_cases hp : prev = ""
        · rw [if_pos hp]
          simp only [List.count_cons, List.count_append, List.nil_append,
            List.count_nil, hline, hhdr, Bool.false_eq_true, if_false]
          rw [ih p.1 hcontent2 hinj2]
          omega
        · rw [if_neg hp]
          simp only [List.count_cons, List.count_append, List.count_nil,
            List.singleton_append, hline, hsep, hhdr, Bool.false_eq_true,
            if_false]
          rw [ih p.1 hcontent2 hinj2]
          omega
    · rw [if_neg hc]
      have hpe : p.1 = prev := not_not.mp hc
      have hterm : (if p.1 ≠ prev ∧ p.1 = c then 1 else 0) = 0 := by
        simp [hpe]
      rw [hterm]
      simp only [List.nil_append, List.count_cons, hline, Bool.false_eq_true,
        if_false]
      rw [ih p.1 hcontent2 hinj2]
      omega

/-- Under the grouped discipline, a category recorded as already left is
never switched into again. -/
theorem changesTo_of_seen (c : String) (cats : List String) :
    ∀ (prev : String) (seen : List String),
    groupedCats prev seen cats = true → c ∈ seen → c ≠ prev →
    changesTo c prev cats = 0 := by
  induction cats with
  | nil => intro prev seen _ _ _; rfl
  | cons x rest ih =>
    intro prev seen hg hseen hne
    unfold groupedCats at hg
    unfold changesTo
    by_cases hx : x = prev
    · rw [if_pos hx] at hg
      have hterm : (if x ≠ prev ∧ x = c then 1 else 0) = 0 := by
        simp [hx]
      rw [hterm, hx, Nat.zero_add]
      exact ih prev seen hg hseen hne
    · rw [if_neg hx] at hg
      by_cases hcontains : seen.contains x
      · rw [if_pos hcontains] at hg
        exact absurd hg (by simp)
      · rw [if_neg hcontains] at hg
        have hxc : x ≠ c := by
          intro hxc
          apply hcontains
          rw [hxc]
          exact List.elem_eq_true_of_mem hseen
        have hterm : (if x ≠ prev ∧ x = c then 1 else 0) = 0 := by
          simp [hxc]
        rw [hterm, Nat.zero_add]
        exact ih x (prev :: seen) hg (List.mem_cons_of_mem prev hseen)
          (fun h => hxc (Eq.symm h))

/-- Under the grouped discipline, the category sequence switches into a
not-yet-seen category exactly once if it occurs at all (and never, when
it only continues the current run). -/
theorem changesTo_of_grouped (c : String) (cats : List String) :
    ∀ (prev : String) (seen : List String),
    groupedCats prev seen cats = true → c ∉ seen →
    changesTo c prev cats = if c ∈ cats ∧ c ≠ prev then 1 else 0 := by
  induction cats with
  | nil => intro prev seen _ _; simp [changesTo]
  | cons x rest ih =>
    intro prev seen hg hseen
    unfold groupedCats at hg
    unfold changesTo
    by_cases hx : x = prev
    · rw [if_pos hx] at hg
      have hterm : (if x ≠ prev ∧ x = c then 1 else 0) = 0 := by
        simp [hx]
      rw [hterm, hx, Nat.zero_add]
      rw [ih prev seen hg hseen]
      by_cases hcp : c = prev
      · simp [hcp, hx]
      · by_cases hcr : c ∈ rest
        · simp [hcr, hcp, hx]
        · have hcx : ¬(c = x) := by
            rw [hx]
            exact hcp
          simp [hcr, hcp, hx, hcx]
    · rw [if_neg hx] at hg
      by_cases hcontains : seen.contains x
      · rw [if_pos hcontains] at hg
        exact absurd hg (by simp)
      · rw [if_neg hcontains] at hg
        by_cases hxc : x = c
        · subst hxc
          have hterm : (if x ≠ prev ∧ x = x then 1 else 0) = 1 := by
            simp [hx]
          rw [hterm]
          have hxseen : x ∉ prev :: seen := by
            intro hmem
            rcases List.mem_cons.mp hmem with h | h
            · exact hx h
            · exact hseen h
          have hrest : changesTo x x rest = 0 := by
            rw [ih x (prev :: seen) hg hxseen]
            simp
          rw [hrest]
          simp [hx, List.mem_cons]
        · have hterm : (if x ≠ prev ∧ x = c then 1 else 0) = 0 := by
            simp [hxc]
          rw [hterm, Nat.zero_add]
          by_cases hcp : c = prev
          · have hrest : changesTo c x rest = 0 := by
              apply changesTo_of_seen c rest x (prev :: seen) hg
              · rw [hcp]
                exact List.mem_cons_self prev seen
              · exact fun h => hxc (Eq.symm h)
            rw [hrest]
            simp [hcp]
          · have hcseen : c ∉ prev :: seen := by
              intro hmem
              rcases List.mem_cons.mp hmem with h | h
              · exact hcp h
              · exact hseen h
            rw [ih x (prev :: seen) hg hcseen]
            have hcx : ¬(c = x) := fun h => hxc (Eq.symm h)
            by_cases hcr : c ∈ rest
            · simp [hcr, hcx, hcp]
            · simp [hcr, hcx, hcp]

/-- With a nonempty filter, entries whose name differs from the filter are
skipped without any effect. -/
theorem helpLoop_skip_all (sc : String) (req : JSONRPCRequest) (hsc : sc ≠ "") :
    ∀ (l : List (String × ContextFreeRPCCommand)) (acc : HelpAcc),
    (∀ e ∈ l, e.2.name ≠ sc) → helpLoop sc req acc l = .ok acc := by
  intro l
  induction l with
  | nil => intro acc _; rfl
  | cons e rest ih =>
    intro acc hall
    have hstep : helpLoopStep sc req acc e = .ok acc := by
      unfold helpLoopStep
      rw [if_pos ⟨Or.inl hsc, hall e (List.mem_cons_self e rest)⟩]
    unfold helpLoop
    rw [hstep]
    exact ih acc (fun x hx => hall x (List.mem_cons_of_mem e hx))

/-- With a nonempty filter matched by exactly one entry whose handler
raises usage text, the loop appends exactly that full message and one
newline. -/
theorem helpLoop_one_match (sc : String) (req : JSONRPCRequest) (hsc : sc ≠ "") :
    ∀ (l : List (String × ContextFreeRPCCommand)) (acc : HelpAcc)
      (e₀ : String × ContextFreeRPCCommand) (msg : String),
    l.filter (fun e => e.2.name == sc) = [e₀] →
    e₀.2.addr ∉ acc.setDone →
    e₀.2.call (helpReqFor req e₀.2.name) = .error (.std msg) →
    helpLoop sc req acc l =
      .ok ⟨acc.strRet ++ msg ++ "\n", acc.category, e₀.2.addr :: acc.setDone⟩ := by
  intro l
  induction l with
  | nil =>
    intro acc e₀ msg hf _ _
    simp at hf
  | cons e rest ih =>
    intro acc e₀ msg hf hdone hcall
    by_cases he : e.2.name = sc
    · have hbeq : (e.2.name == sc) = true := beq_iff_eq.mpr he
      simp only [List.filter_cons, hbeq, if_true] at hf
      have hinj := List.cons.inj hf
      obtain ⟨he0, hrest⟩ := hinj
      subst he0
      have hcont : acc.setDone.contains e.2.addr = false := by
        simpa using hdone
      have hstep : helpLoopStep sc req acc e =
          .ok ⟨acc.strRet ++ msg ++ "\n", acc.category,
               e.2.addr :: acc.setDone⟩ := by
        unfold helpLoopStep
        rw [if_neg (fun h => h.2 he)]
        rw [hcont]
        simp only [Bool.false_eq_true, if_false]
        rw [hcall]
        simp [hsc]
      unfold helpLoop
      rw [hstep]
      apply helpLoop_skip_all sc req hsc rest
      intro x hx
      have := List.filter_eq_nil_iff.mp hrest x hx
      simpa using this
    · have hbeq : (e.2.name == sc) = false := beq_eq_false_iff_ne.mpr he
      simp only [List.filter_cons, hbeq, Bool.false_eq_true, if_false] at hf
      have hstep : helpLoopStep sc req acc e = .ok acc := by
        unfold helpLoopStep
        rw [if_pos ⟨Or.inl hsc, he⟩]
      unfold helpLoop
      rw [hstep]
      exact ih acc e₀ msg hf hdone hcall

/-- With the empty filter, hidden commands (whose name is nonempty) are
skipped without any effect. -/
theorem helpLoop_hidden_skip (req : JSONRPCRequest) (acc : HelpAcc)
    (e : String × ContextFreeRPCCommand)
    (l : List (String × ContextFreeRPCCommand))
    (hhid : e.2.category = "hidden") (hname : e.2.name ≠ "") :
    helpLoop "" req acc (e :: l) = helpLoop "" req acc l := by
  have hstep : helpLoopStep "" req acc e = .ok acc := by
    unfold helpLoopStep
    rw [if_pos ⟨Or.inr hhid, hname⟩]
  simp only [helpLoop, hstep]

/-- Unfolding equation of `helpLoop` on a nonempty list. -/
theorem helpLoop_cons (sc : String) (req : JSONRPCRequest) (acc : HelpAcc)
    (e : String × ContextFreeRPCCommand)
    (l : List (String × ContextFreeRPCCommand)) :
    helpLoop sc req acc (e :: l) =
      match helpLoopStep sc req acc e with
      | .error err => .error err
      | .ok acc2 => helpLoop sc req acc2 l := by
  simp only [helpLoop]

/-- Closed form of the empty-filter loop: over non-hidden commands with
pairwise distinct descriptor addresses whose handlers raise usage text,
the loop appends exactly the spec-side rendering of the
(category, first line) sequence. -/
theorem helpLoop_closed_form (req : JSONRPCRequest)
    (M : String × ContextFreeRPCCommand → String) :
    ∀ (l : List (String × ContextFreeRPCCommand)) (acc : HelpAcc),
    (∀ e ∈ l, e.2.category ≠ "hidden") →
    (∀ e ∈ l, e.2.call (helpReqFor req e.2.name) = .error (.std (M e))) →
    (l.map (fun e => e.2.addr)).Nodup →
    (∀ e ∈ l, e.2.addr ∉ acc.setDone) →
    ∃ c d, helpLoop "" req acc l =
      .ok ⟨acc.strRet ++ specRender acc.category
        (l.map (fun e => (e.2.category, firstLine (M e)))), c, d⟩ := by
  intro l
  induction l with
  | nil =>
    intro acc _ _ _ _
    refine ⟨acc.category, acc.setDone, ?_⟩
    simp [helpLoop, specRender]
  | cons e rest ih =>
    intro acc hhid hcall hnodup hdone
    have hhide : e.2.category ≠ "hidden" := hhid e (List.mem_cons_self e rest)
    have hcalle := hcall e (List.mem_cons_self e rest)
    have hdonee : acc.setDone.contains e.2.addr = false := by
      simpa using hdone e (List.mem_cons_self e rest)
    have hnodup2 : (rest.map (fun e => e.2.addr)).Nodup := by
      simp only [List.map_cons, List.nodup_cons] at hnodup
      exact hnodup.2
    have hheadaddr : e.2.addr ∉ rest.map (fun e => e.2.addr) := by
      simp only [List.map_cons, List.nodup_cons] at hnodup
      exact hnodup.1
    have hskip : ¬((("" : String) ≠ "" ∨ e.2.category = "hidden") ∧
        e.2.name ≠ "") :=
      fun h => h.1.elim (fun hh => hh rfl) hhide
    have hdone2 : ∀ x ∈ rest, x.2.addr ∉ e.2.addr :: acc.setDone := by
      intro x hx hmem
      rcases List.mem_cons.mp hmem with h | h
      · exact hheadaddr (h ▸ List.mem_map_of_mem (fun e => e.2.addr) hx)
      · exact hdone x (List.mem_cons_of_mem e hx) h
    have hhid2 := fun x hx => hhid x (List.mem_cons_of_mem e hx)
    have hcall2 := fun x hx => hcall x (List.mem_cons_of_mem e hx)
    by_cases hcat : acc.category = e.2.category
    · have hstep : helpLoopStep "" req acc e =
          .ok ⟨acc.strRet ++ firstLine (M e) ++ "\n", acc.category,
               e.2.addr :: acc.setDone⟩ := by
        unfold helpLoopStep
        rw [if_neg hskip]
        rw [hdonee]
        simp only [Bool.false_eq_true, if_false]
        rw [hcalle]
        simp [hcat]
      obtain ⟨c, d, hrec⟩ := ih
        ⟨acc.strRet ++ firstLine (M e) ++ "\n", acc.category,
         e.2.addr :: acc.setDone⟩ hhid2 hcall2 hnodup2 hdone2
      refine ⟨c, d, ?_⟩
      rw [helpLoop_cons, hstep]
      simp only []
      rw [hrec]
      have hspec : specRender acc.category
          ((e.2.category, firstLine (M e)) ::
            rest.map (fun x => (x.2.category, firstLine (M x)))) =
          firstLine (M e) ++ "\n" ++
            specRender e.2.category
              (rest.map (fun x => (x.2.category, firstLine (M x)))) := by
        simp only [specRender]
        rw [if_neg (fun h => h hcat.symm)]
        simp
      simp only [List.map_cons]
      rw [hspec, hcat]
      simp [String.append_assoc]
    · have hstep : helpLoopStep "" req acc e =
          .ok ⟨acc.strRet ++
            ((if acc.category = "" then "" else "\n") ++ "== " ++
              Capitalize e.2.category ++ " ==\n" ++ firstLine (M e) ++ "\n"),
            e.2.category, e.2.addr :: acc.setDone⟩ := by
        unfold helpLoopStep
        rw [if_neg hskip]
        rw [hdonee]
        simp only [Bool.false_eq_true, if_false]
        rw [hcalle]
        simp [hcat]
      obtain ⟨c, d, hrec⟩ := ih
        ⟨acc.strRet ++
          ((if acc.category = "" then "" else "\n") ++ "== " ++
            Capitalize e.2.category ++ " ==\n" ++ firstLine (M e) ++ "\n"),
         e.2.category, e.2.addr :: acc.setDone⟩ hhid2 hcall2 hnodup2 hdone2
      refine ⟨c, d, ?_⟩
      rw [helpLoop_cons, hstep]
      simp only []
      rw [hrec]
      have hspec : specRender acc.category
          ((e.2.category, firstLine (M e)) ::
            rest.map (fun x => (x.2.category, firstLine (M x)))) =
          ((if acc.category = "" then "" else "\n") ++ "== " ++
            Capitalize e.2.category ++ " ==\n") ++ firstLine (M e) ++ "\n" ++
            specRender e.2.category
              (rest.map (fun x => (x.2.category, firstLine (M x)))) := by
        simp only [specRender]
        rw [if_pos (fun h => hcat h.symm)]
      simp only [List.map_cons]
      rw [hspec]
      simp [String.append_assoc]

/-- A rendered listing over at least one command is never empty. -/
theorem specRender_cons_ne_empty (prev : String) (p : String × String)
    (rest : List (String × String)) : specRender prev (p :: rest) ≠ "" := by
  unfold specRender
  exact append_newline_ne_empty _ _

/-- Appending one newline never yields the empty string. -/
theorem append_one_newline_ne_empty (s : String) : s ++ "\n" ≠ "" := by
  intro h
  have hd := congrArg String.data h
  simp [String.data_append] at hd

/-- C8 counterexample: the claim fails on the code in two ways. A command
whose usage text ends in a newline makes `help` (with the matching
filter) return text that still ends in a newline, because exactly one
character is stripped. And because the enumeration is sorted by the
concatenated string category ++ name — not by the pair (category, name) —
categories "a" and "ab" interleave, so the commands are not sorted by
category-then-name and the header "== A ==" is emitted twice. -/
theorem C8_help_counterexample :
    (CRPCTable.help
        ⟨[("c1", ⟨"control", "c1", fun _ => .error (.std "usage line\nrest\n"), [], 0⟩)]⟩
        "c1" ⟨"", .vnull, .vnull, false⟩ = .ok "usage line\nrest\n") ∧
    ("usage line\nrest\n").data.getLast? = some '\n' ∧
    (CRPCTable.help
        ⟨[("a", ⟨"a", "a", fun _ => .error (.std "La"), [], 0⟩),
          ("0", ⟨"ab", "0", fun _ => .error (.std "L0"), [], 1⟩),
          ("c", ⟨"a", "c", fun _ => .error (.std "Lc"), [], 2⟩)]⟩
        "" ⟨"", .vnull, .vnull, false⟩ =
      .ok "== A ==\nLa\n\n== Ab ==\nL0\n\n== A ==\nLc") ∧
    (linesOf "== A ==\nLa\n\n== Ab ==\nL0\n\n== A ==\nLc").count "== A ==" = 2 := by
  refine ⟨rfl, by decide, rfl, by decide⟩

/-- C8 (amended): `CRPCTable::help` enumerates the static commands sorted
ascending by the concatenated string category ++ name (which coincides
with category-then-name order only when categories do not interleave
under concatenation); hidden-category commands are skipped with an empty
filter but shown when the filter matches; with a filter matching no
command's name the result is exactly the unknown-command message; with a
filter matched by exactly one command the result is exactly the command's
full usage text (one appended newline stripped, so it ends in a newline
iff the usage text does); and with an empty filter over non-hidden
commands whose handlers raise usage text, the result is the spec-side
rendering of (category, first line) pairs with one trailing newline
stripped — a rendering in which, for a grouped category sequence, each
category's "== Category ==" header occurs exactly once. -/
theorem C8_help_amended :
    (∀ t : CRPCTable, List.Sorted helpSortLE t.sortedHelpList) ∧
    (∀ (t : CRPCTable) (sc : String) (req : JSONRPCRequest), sc ≠ "" →
      (∀ e ∈ t.mapCommands, e.2.name ≠ sc) →
      t.help sc req = .ok ("help: unknown command: " ++ sc)) ∧
    (∀ (t : CRPCTable) (sc : String) (req : JSONRPCRequest)
        (e₀ : String × ContextFreeRPCCommand) (msg : String), sc ≠ "" →
      t.sortedHelpList.filter (fun e => e.2.name == sc) = [e₀] →
      e₀.2.call (helpReqFor req e₀.2.name) = .error (.std msg) →
      t.help sc req = .ok msg) ∧
    (∀ (t : CRPCTable) (req : JSONRPCRequest)
        (M : String × ContextFreeRPCCommand → String),
      (∀ e ∈ t.sortedHelpList, e.2.category ≠ "hidden") →
      (∀ e ∈ t.sortedHelpList,
        e.2.call (helpReqFor req e.2.name) = .error (.std (M e))) →
      (t.sortedHelpList.map (fun e => e.2.addr)).Nodup →
      t.sortedHelpList ≠ [] →
      t.help "" req = .ok (dropLastChar (specRender ""
        (t.sortedHelpList.map (fun e => (e.2.category, firstLine (M e))))))) ∧
    (∀ (prev : String) (ps : List (String × String)),
      specRender prev ps = joinLines (specLines prev ps)) ∧
    (∀ (ps : List (String × String)) (c : String), c ≠ "" →
      groupedCats "" [] (ps.map Prod.fst) = true →
      c ∈ ps.map Prod.fst →
      (∀ p ∈ ps, p.2 ≠ headerLine c) →
      (∀ cat ∈ ps.map Prod.fst, headerLine cat = headerLine c → cat = c) →
      (specLines "" ps).count (headerLine c) = 1) ∧
    (∀ (req : JSONRPCRequest) (acc : HelpAcc)
        (e : String × ContextFreeRPCCommand)
        (l : List (String × ContextFreeRPCCommand)),
      e.2.category = "hidden" → e.2.name ≠ "" →
      helpLoop "" req acc (e :: l) = helpLoop "" req acc l) := by
  refine ⟨fun t => List.sorted_insertionSort helpSortLE _,
    fun t sc req hsc hnames => ?_,
    fun t sc req e₀ msg hsc hfilter hcall => ?_,
    fun t req M hhid hcall hnodup hne => ?_,
    fun prev ps => specRender_eq_joinLines ps prev,
    fun ps c hc hg hmem hcontent hinj => ?_,
    fun req acc e l hhid hname => helpLoop_hidden_skip req acc e l hhid hname⟩
  · have hall : ∀ e ∈ t.sortedHelpList, e.2.name ≠ sc := by
      intro e he
      have hmem : e ∈ t.mapCommands.map (fun x => (x.2.category ++ x.1, x.2)) :=
        (List.mem_insertionSort helpSortLE).mp he
      obtain ⟨x, hx, hxe⟩ := List.mem_map.mp hmem
      rw [← hxe]
      exact hnames x hx
    unfold CRPCTable.help
    rw [helpLoop_skip_all sc req hsc t.sortedHelpList ⟨"", "", []⟩ hall]
    simp [dropLastChar_append_newline]
  · unfold CRPCTable.help
    rw [helpLoop_one_match sc req hsc t.sortedHelpList ⟨"", "", []⟩ e₀ msg
      hfilter (by simp) hcall]
    simp only []
    rw [if_neg (by simpa using append_one_newline_ne_empty msg)]
    have : (("" : String) ++ msg ++ "\n") = msg ++ "\n" := by simp
    rw [this, dropLastChar_append_newline]
  · obtain ⟨c, d, hrec⟩ := helpLoop_closed_form req M t.sortedHelpList
      ⟨"", "", []⟩ hhid hcall hnodup (by simp)
    unfold CRPCTable.help
    rw [hrec]
    simp only []
    obtain ⟨p, rest, hcons⟩ := List.exists_cons_of_ne_nil
      (fun h => hne (List.map_eq_nil_iff.mp h))
    rw [hcons]
    rw [if_neg (by simpa using specRender_cons_ne_empty "" p rest)]
    simp
  · rw [count_specLines c ps "" hcontent
      (fun p hp h => hinj p.1 (List.mem_map_of_mem Prod.fst hp) h)]
    rw [changesTo_of_grouped c (ps.map Prod.fst) "" [] hg (by simp)]
    simp [hmem, hc]

/-- Witness fixture: a "net" command whose usage text has two lines. -/
def w8c1 : ContextFreeRPCCommand :=
  ⟨"net", "alpha", fun _ => .error (.std "La\nxx"), [], 0⟩

/-- Witness fixture: a "wallet" command with a one-line usage text. -/
def w8c2 : ContextFreeRPCCommand :=
  ⟨"wallet", "beta", fun _ => .error (.std "Lb"), [], 1⟩

/-- Witness fixture: a two-category static table. -/
def w8tbl : CRPCTable := ⟨[("alpha", w8c1), ("beta", w8c2)]⟩

/-- Witness fixture: the base request handed to the help aggregator. -/
def w8req : JSONRPCRequest := ⟨"", .vnull, .vnull, false⟩

/-- Witness fixture: the usage text each witness command raises. -/
def w8M : String × ContextFreeRPCCommand → String :=
  fun e => if e.2.addr = 0 then "La\nxx" else "Lb"

/-- C8 witness: on a concrete two-category table, an unknown filter
yields the unknown-command message; an exact filter yields the full
usage text; the empty filter yields the grouped listing (headers once,
first lines only, no trailing newline); the header count is one; and a
hidden command is skipped by the empty-filter loop. -/
theorem C8_help_amended_witness :
    (w8tbl.help "zzz" w8req = .ok "help: unknown command: zzz") ∧
    (w8tbl.help "beta" w8req = .ok "Lb") ∧
    (w8tbl.help "" w8req = .ok "== Net ==\nLa\n\n== Wallet ==\nLb") ∧
    ((specLines "" [("net", "La"), ("wallet", "Lb")]).count (headerLine "net")
      = 1) ∧
    (helpLoop "" w8req ⟨"", "", []⟩
        [("hiddenh", ⟨"hidden", "h", fun _ => .ok .vnull, [], 9⟩)] =
      helpLoop "" w8req ⟨"", "", []⟩ []) := by
  refine ⟨?_, ?_, ?_, ?_, ?_⟩
  · exact C8_help_amended.2.1 w8tbl "zzz" w8req (by decide) (by decide)
  · exact C8_help_amended.2.2.1 w8tbl "beta" w8req ("walletbeta", w8c2) "Lb"
      (by decide) rfl rfl
  · have hsorted : w8tbl.sortedHelpList =
        [("netalpha", w8c1), ("walletbeta", w8c2)] := rfl
    have hhid : ∀ e ∈ w8tbl.sortedHelpList, e.2.category ≠ "hidden" := by
      decide
    have hcall : ∀ e ∈ w8tbl.sortedHelpList,
        e.2.call (helpReqFor w8req e.2.name) = .error (.std (w8M e)) := by
      intro e he
      rw [hsorted] at he
      rcases List.mem_cons.mp he with h | h
      · subst h
        rfl
      · rcases List.mem_cons.mp h with h2 | h2
        · subst h2
          rfl
        · exact absurd h2 (List.not_mem_nil e)
    have hnodup : (w8tbl.sortedHelpList.map (fun e => e.2.addr)).Nodup := by
      decide
    have hne : w8tbl.sortedHelpList ≠ [] := by
      rw [hsorted]
      exact List.cons_ne_nil _ _
    exact C8_help_amended.2.2.2.1 w8tbl w8req w8M hhid hcall hnodup hne
  · exact C8_help_amended.2.2.2.2.2.1 [("net", "La"), ("wallet", "Lb")] "net"
      (by decide) rfl (by decide) (by decide) (by decide)
  · exact C8_help_amended.2.2.2.2.2.2 w8req ⟨"", "", []⟩
      ("hiddenh", ⟨"hidden", "h", fun _ => .ok .vnull, [], 9⟩) [] rfl (by decide)
